import Mathlib

/-!
Verification of the incremental-replication pipeline in
`src/airflow/postgres_to_snowflake.py`.

The pipeline has two operations per table:

* `get_max_primary_key table_name` issues
  `SELECT MAX(ID_<table_name>) FROM <table_name>` against the destination
  (Snowflake) store and returns the fetched value, or `0` when the
  aggregate is the SQL `NULL` indicator.

* `load_incremental_data table_name max_id` issues, against the source
  (Postgres) store,
  `SELECT column_name FROM information_schema.columns WHERE table_name = '<t>'`
  to discover the column list, then
  `SELECT <cols> FROM <t> WHERE ID_<t> > <max_id>` to extract the delta,
  and finally executes
  `INSERT INTO <t> (<cols>) VALUES (...)` once per extracted row against
  the destination store.

We embed the relational state of both stores shallowly: a table is an
ordered column schema together with a list of rows (value tuples), a
database is an association list of named tables, and the Postgres side
additionally carries its `information_schema.columns` catalog.  Each SQL
statement the Python code builds is given its standard semantics as a Lean
function, and the two tasks are transcribed over those statement
semantics, statement by statement.
-/

namespace PostgresToSnowflake

/-- A SQL value as it travels through the pipeline: the code moves values
verbatim, and the incrementality column is an integer by the system's
naming-convention invariant. -/
inductive Value where
  | int (i : Int)
  | str (s : String)
  | null
deriving DecidableEq, Repr

/-- A row is the ordered tuple of values aligned with a table's schema. -/
abbrev Row := List Value

/-- A relational table: its ordered column names and its rows. -/
structure Table where
  schema : List String
  rows : List Row
deriving DecidableEq, Repr

/-- One row of `information_schema.columns` on the source store. -/
structure CatalogEntry where
  table_schema : String
  table_name : String
  column_name : String
deriving DecidableEq, Repr

/-- The source (Postgres) store: its column catalog and its tables. -/
structure PostgresDB where
  catalog : List CatalogEntry
  tables : List (String × Table)
deriving DecidableEq, Repr

/-- The destination (Snowflake) store. -/
structure SnowflakeDB where
  tables : List (String × Table)
deriving DecidableEq, Repr

/-- Resolve a table name in a store (first binding wins, as in SQL where
a name denotes one table). -/
def lookupTableList : List (String × Table) → String → Option Table
  | [], _ => none
  | p :: ps, t => if p.1 = t then some p.2 else lookupTableList ps t

/-- Replace the table bound to a name in a store. -/
def updateTableList : List (String × Table) → String → Table → List (String × Table)
  | [], _, _ => []
  | p :: ps, t, tbl =>
    if p.1 = t then (p.1, tbl) :: updateTableList ps t tbl
    else p :: updateTableList ps t tbl

/-- Errors a statement can raise at the store layer. -/
inductive SqlError where
  | undefinedTable
  | undefinedColumn
  | syntaxError
  | typeMismatch
deriving DecidableEq, Repr

/-- The position a column list assigns to a name (first occurrence). -/
def colIdx? : List String → String → Option Nat
  | [], _ => none
  | s :: ss, c => if s = c then some 0 else (colIdx? ss c).map Nat.succ

/-- The value a row holds in a named column: position the schema assigns to
the column (first occurrence), `NULL` outside the row. -/
def colValueD (schema : List String) (r : Row) (c : String) : Value :=
  match colIdx? schema c with
  | some i => r.getD i Value.null
  | none => Value.null

/-- SQL truth of the predicate `pkCol > w` on a row: integer comparison,
false on `NULL` (three-valued logic never selects on unknown). -/
def pkGt (schema : List String) (pkCol : String) (w : Int) (r : Row) : Bool :=
  match colValueD schema r pkCol with
  | Value.int i => w < i
  | _ => false

/-- Semantics of
`SELECT column_name FROM information_schema.columns WHERE table_name = 't'`:
the catalog rows whose `table_name` field matches, in catalog order,
projected to `column_name`.  The statement has no `table_schema`
condition and no `ORDER BY`. -/
def queryInformationSchemaColumns (db : PostgresDB) (t : String) : List String :=
  (db.catalog.filter (fun e => e.table_name = t)).map (fun e => e.column_name)

/-- Semantics of `SELECT <cols> FROM <t> WHERE <pkCol> > <w>` on the source
store: resolve the table, check every referenced column exists, then
return the matching rows projected onto `cols`, in stored order. -/
def querySelectWhereGt (db : PostgresDB) (cols : List String) (t pkCol : String)
    (w : Int) : Except SqlError (List Row) :=
  match lookupTableList db.tables t with
  | none => Except.error SqlError.undefinedTable
  | some tbl =>
    if (∀ c ∈ cols, c ∈ tbl.schema) ∧ pkCol ∈ tbl.schema then
      Except.ok ((tbl.rows.filter (pkGt tbl.schema pkCol w)).map
        (fun r => cols.map (colValueD tbl.schema r)))
    else Except.error SqlError.undefinedColumn

/-- The destination row written by `INSERT INTO t (<cols>) VALUES (<vals>)`:
each schema column takes the value positionally matched to it through
`cols`, unmentioned columns default to `NULL`. -/
def buildRow (schema cols : List String) (vals : Row) : Row :=
  schema.map (fun c =>
    match colIdx? cols c with
    | some i => vals.getD i Value.null
    | none => Value.null)

/-- Semantics of one `INSERT INTO t (<cols>) VALUES (...)` execution with
parameters `vals` against the destination store: the statement needs a
nonempty column list, an existing table, known columns, and as many
values as columns; on success the new row is appended. -/
def execInsert (sf : SnowflakeDB) (t : String) (cols : List String) (vals : Row) :
    Except SqlError SnowflakeDB :=
  if cols = [] then Except.error SqlError.syntaxError
  else
    match lookupTableList sf.tables t with
    | none => Except.error SqlError.undefinedTable
    | some tbl =>
      if ∀ c ∈ cols, c ∈ tbl.schema then
        if vals.length = cols.length then
          Except.ok ⟨updateTableList sf.tables t
            ⟨tbl.schema, tbl.rows ++ [buildRow tbl.schema cols vals]⟩⟩
        else Except.error SqlError.typeMismatch
      else Except.error SqlError.undefinedColumn

/-- The greatest element of a list of integers, `none` on the empty list:
what `MAX` computes over the non-`NULL` values of an integer column. -/
def maxInt? : List Int → Option Int
  | [] => none
  | i :: is =>
    match maxInt? is with
    | none => some i
    | some m => some (max i m)

/-- The integer values a column holds over the rows of a table; `MAX`
ignores `NULL`s, so only genuine integers contribute. -/
def columnInts (schema : List String) (rows : List Row) (c : String) : List Int :=
  rows.filterMap (fun r =>
    match colValueD schema r c with
    | Value.int i => some i
    | _ => none)

/-- Task `get_max_id_<table>`: execute
`SELECT MAX(ID_<table_name>) FROM <table_name>` on the destination and
return the fetched aggregate, with the code's `NULL`-to-`0` defaulting
(`max_id if max_id is not None else 0`).  The returned store component
records the state of the destination when the call ends. -/
def get_max_primary_key (sf : SnowflakeDB) (table_name : String) :
    Except SqlError (Int × SnowflakeDB) :=
  match lookupTableList sf.tables table_name with
  | none => Except.error SqlError.undefinedTable
  | some tbl =>
    if ("ID_" ++ table_name) ∈ tbl.schema then
      Except.ok ((maxInt? (columnInts tbl.schema tbl.rows ("ID_" ++ table_name))).getD 0, sf)
    else Except.error SqlError.undefinedColumn

/-- One `sf_cursor.execute(insert_query, row)` call as the loader performs
it, with the column list the statement names. -/
structure InsertCall where
  table : String
  cols : List String
  vals : Row
deriving DecidableEq, Repr

/-- The loader's insertion loop `for row in rows: sf_cursor.execute(...)`:
execute one `INSERT` per row, in order, threading the destination state;
a raised error aborts the loop after that execution, with no rollback of
the rows already committed. -/
def insertLoop (t : String) (cols : List String) :
    SnowflakeDB → List Row → SnowflakeDB × List InsertCall × Option SqlError
  | sf, [] => (sf, [], none)
  | sf, r :: rs =>
    match execInsert sf t cols r with
    | Except.error e => (sf, [⟨t, cols, r⟩], some e)
    | Except.ok sf₂ =>
      match insertLoop t cols sf₂ rs with
      | (sf₃, calls, err) => (sf₃, ⟨t, cols, r⟩ :: calls, err)

/-- What one invocation of the loader did: the discovered column list, the
column list of the extraction `SELECT`, the rows it fetched, and the
`INSERT` executions it performed. -/
structure LoadTrace where
  discovered : List String
  selectCols : List String
  extracted : List Row
  inserts : List InsertCall
deriving DecidableEq, Repr

/-- Task `load_data_<table>`: discover the column list from
`information_schema.columns` (filtered by `table_name` only), extract the
rows with `ID_<table_name> > max_id` using that column list, and insert
them row by row into the destination with the same column list.  Returns
the destination state, the trace of what was executed, and the raised
error, if any. -/
def load_incremental_data (pg : PostgresDB) (sf : SnowflakeDB)
    (table_name : String) (max_id : Int) :
    SnowflakeDB × LoadTrace × Option SqlError :=
  let primary_key := "ID_" ++ table_name
  let columns := queryInformationSchemaColumns pg table_name
  match querySelectWhereGt pg columns table_name primary_key max_id with
  | Except.error e => (sf, ⟨columns, columns, [], []⟩, some e)
  | Except.ok rows =>
    match insertLoop table_name columns sf rows with
    | (sf₂, calls, err) => (sf₂, ⟨columns, columns, rows, calls⟩, err)

/-- The two-task pipeline the DAG wires per table: read the watermark from
the destination, then load the delta above it. -/
def pipelineRun (pg : PostgresDB) (sf : SnowflakeDB) (table_name : String) :
    SnowflakeDB × LoadTrace × Option SqlError :=
  match get_max_primary_key sf table_name with
  | Except.error e => (sf, ⟨[], [], [], []⟩, some e)
  | Except.ok (max_id, sf₁) => load_incremental_data pg sf₁ table_name max_id

/-! ### Concrete stores used to exercise the pipeline

The `estados` scenario worked out in the design document: the source holds
rows with primary keys 1..5, the destination already holds 1..3. -/

/-- Source `estados` table with primary keys 1..5. -/
def estadosSrc : Table :=
  ⟨["ID_estados", "nome"],
   [[Value.int 1, Value.str "AC"], [Value.int 2, Value.str "AL"],
    [Value.int 3, Value.str "AP"], [Value.int 4, Value.str "AM"],
    [Value.int 5, Value.str "BA"]]⟩

/-- A source store holding `estados` with a consistent catalog. -/
def samplePg : PostgresDB :=
  ⟨[⟨"public", "estados", "ID_estados"⟩, ⟨"public", "estados", "nome"⟩],
   [("estados", estadosSrc)]⟩

/-- Destination `estados` table already holding primary keys 1..3. -/
def estadosDst : Table :=
  ⟨["ID_estados", "nome"],
   [[Value.int 1, Value.str "AC"], [Value.int 2, Value.str "AL"],
    [Value.int 3, Value.str "AP"]]⟩

/-- A destination store holding the partially replicated `estados`. -/
def sampleSf : SnowflakeDB := ⟨[("estados", estadosDst)]⟩

/-- A destination store whose `estados` table has no rows yet. -/
def emptySf : SnowflakeDB := ⟨[("estados", ⟨["ID_estados", "nome"], []⟩)]⟩

/-- A source store in which the table `estados` exists in two schemas: the
catalog carries both tables' columns under the same `table_name`. -/
def twoSchemaPg : PostgresDB :=
  ⟨[⟨"public", "estados", "ID_estados"⟩, ⟨"public", "estados", "nome"⟩,
    ⟨"staging", "estados", "obs"⟩],
   [("estados", estadosSrc)]⟩

/-- A source store whose catalog has no entry for `estados` and which has no
`estados` table: the table is absent, as after a rename. -/
def absentPg : PostgresDB := ⟨[], []⟩

/-- The destination store after the first delta row of `estados` (primary
key 4) has been committed: the mid-batch state reached just before a
failing second insert. -/
def sampleSfAfterOne : SnowflakeDB :=
  ⟨[("estados", ⟨["ID_estados", "nome"],
     [[Value.int 1, Value.str "AC"], [Value.int 2, Value.str "AL"],
      [Value.int 3, Value.str "AP"], [Value.int 4, Value.str "AM"]]⟩)]⟩

/-! ### Column-index helpers -/

theorem colIdx?_eq_none_iff (l : List String) (c : String) :
    colIdx? l c = none ↔ c ∉ l := by
  induction l with
  | nil => simp [colIdx?]
  | cons s ss ih =>
    by_cases hs : s = c
    · simp [colIdx?, hs]
    · simp [colIdx?, hs, ih, Ne.symm hs]

theorem colIdx?_isSome_of_mem {l : List String} {c : String} (h : c ∈ l) :
    ∃ i, colIdx? l c = some i := by
  cases hi : colIdx? l c with
  | some i => exact ⟨i, rfl⟩
  | none => exact absurd h ((colIdx?_eq_none_iff l c).mp hi)

theorem colIdx?_lt_length {l : List String} {c : String} {i : Nat}
    (h : colIdx? l c = some i) : i < l.length := by
  induction l generalizing i with
  | nil => simp [colIdx?] at h
  | cons s ss ih =>
    by_cases hs : s = c
    · simp [colIdx?, hs] at h
      simp only [List.length_cons]
      omega
    · simp [colIdx?, hs] at h
      obtain ⟨j, hj, rfl⟩ := h
      have := ih hj
      simp only [List.length_cons]
      omega

theorem getElem_colIdx? {l : List String} {c : String} {i : Nat}
    (h : colIdx? l c = some i) (hi : i < l.length) : l[i] = c := by
  induction l generalizing i with
  | nil => simp [colIdx?] at h
  | cons s ss ih =>
    by_cases hs : s = c
    · simp [colIdx?, hs] at h
      subst h
      simpa using hs
    · simp [colIdx?, hs] at h
      obtain ⟨j, hj, rfl⟩ := h
      simpa using ih hj (by simpa using hi)

theorem colIdx?_getElem_of_nodup {l : List String} (hnd : l.Nodup)
    (i : Nat) (hi : i < l.length) : colIdx? l (l[i]) = some i := by
  induction l generalizing i with
  | nil => simp at hi
  | cons s ss ih =>
    cases i with
    | zero => simp [colIdx?]
    | succ j =>
      have hj : j < ss.length := by simpa using hi
      have hne : s ≠ ss[j] := by
        intro hcontra
        exact (List.nodup_cons.mp hnd).1 (hcontra ▸ ss.getElem_mem hj)
      simp only [List.getElem_cons_succ, colIdx?, if_neg hne]
      rw [ih (List.nodup_cons.mp hnd).2 j hj]
      rfl

/-! ### Projection and insertion-row helpers -/

theorem colValueD_getElem_of_nodup {schema : List String} {r : Row}
    (hnd : schema.Nodup) (i : Nat) (hi : i < schema.length) :
    colValueD schema r (schema[i]) = r.getD i Value.null := by
  rw [colValueD, colIdx?_getElem_of_nodup hnd i hi]

theorem projectRow_self {schema : List String} {r : Row}
    (hnd : schema.Nodup) (hlen : r.length = schema.length) :
    schema.map (fun c => colValueD schema r c) = r := by
  apply List.ext_getElem
  · simp [hlen]
  · intro n h₁ h₂
    have hn : n < schema.length := by simpa using h₁
    rw [List.getElem_map, colValueD_getElem_of_nodup hnd n hn]
    exact List.getD_eq_getElem r Value.null (hlen ▸ hn)

theorem buildRow_eq_map (schema cols : List String) (vals : Row) :
    buildRow schema cols vals = schema.map (fun c => colValueD cols vals c) := rfl

theorem buildRow_self {schema : List String} {vals : Row}
    (hnd : schema.Nodup) (hlen : vals.length = schema.length) :
    buildRow schema schema vals = vals := by
  rw [buildRow_eq_map]
  exact projectRow_self hnd hlen

theorem colValueD_buildRow {schema cols : List String} {vals : Row} {c : String}
    (hc : c ∈ schema) :
    colValueD schema (buildRow schema cols vals) c = colValueD cols vals c := by
  obtain ⟨i, hi⟩ := colIdx?_isSome_of_mem hc
  have hlt : i < schema.length := colIdx?_lt_length hi
  have hget : schema[i] = c := getElem_colIdx? hi hlt
  simp only [colValueD, hi, buildRow]
  rw [List.getD_eq_getElem _ Value.null (by simpa using hlt)]
  rw [List.getElem_map, hget]

/-! ### `MAX` aggregate helpers -/

theorem maxInt?_eq_none_iff (l : List Int) : maxInt? l = none ↔ l = [] := by
  cases l with
  | nil => simp [maxInt?]
  | cons i is =>
    simp only [maxInt?]
    cases maxInt? is <;> simp

theorem maxInt?_mem {l : List Int} {m : Int} (h : maxInt? l = some m) : m ∈ l := by
  induction l generalizing m with
  | nil => simp [maxInt?] at h
  | cons i is ih =>
    simp only [maxInt?] at h
    cases his : maxInt? is with
    | none => rw [his] at h; simp at h; simp [h]
    | some m' =>
      rw [his] at h
      simp at h
      rcases max_choice i m' with hmax | hmax <;> rw [hmax] at h
      · simp [h]
      · exact List.mem_cons_of_mem i (h ▸ ih his)

theorem le_maxInt? {l : List Int} {m : Int} (h : maxInt? l = some m) :
    ∀ x ∈ l, x ≤ m := by
  induction l generalizing m with
  | nil => simp
  | cons i is ih =>
    intro x hx
    simp only [maxInt?] at h
    cases his : maxInt? is with
    | none =>
      rw [his] at h
      simp at h
      have : is = [] := (maxInt?_eq_none_iff is).mp his
      subst this
      simp at hx
      omega
    | some m' =>
      rw [his] at h
      simp at h
      rcases List.mem_cons.mp hx with rfl | hx'
      · omega
      · have := ih his x hx'
        omega

theorem maxInt?_isSome_of_ne_nil {l : List Int} (h : l ≠ []) :
    ∃ m, maxInt? l = some m := by
  cases hm : maxInt? l with
  | some m => exact ⟨m, rfl⟩
  | none => exact absurd ((maxInt?_eq_none_iff l).mp hm) h

/-! ### Column-integer (`MAX` input) helpers -/

theorem columnInts_append (schema : List String) (r₁ r₂ : List Row) (c : String) :
    columnInts schema (r₁ ++ r₂) c = columnInts schema r₁ c ++ columnInts schema r₂ c :=
  List.filterMap_append r₁ r₂ _

theorem mem_columnInts {schema : List String} {rows : List Row} {c : String} {i : Int} :
    i ∈ columnInts schema rows c ↔ ∃ r ∈ rows, colValueD schema r c = Value.int i := by
  simp only [columnInts, List.mem_filterMap]
  constructor
  · rintro ⟨r, hr, hf⟩
    cases hv : colValueD schema r c <;> rw [hv] at hf <;> simp at hf
    exact ⟨r, hr, by rw [hv, hf]⟩
  · rintro ⟨r, hr, hv⟩
    exact ⟨r, hr, by rw [hv]⟩

/-! ### Store lookup and update helpers -/

theorem lookupTableList_updateTableList {ts : List (String × Table)} {t : String}
    {tbl₀ : Table} (tbl : Table) (h : lookupTableList ts t = some tbl₀) :
    lookupTableList (updateTableList ts t tbl) t = some tbl := by
  induction ts with
  | nil => simp [lookupTableList] at h
  | cons p ps ih =>
    by_cases hp : p.1 = t
    · simp [lookupTableList, updateTableList, hp]
    · simp only [lookupTableList, updateTableList, if_neg hp] at h ⊢
      exact ih h

/-! ### Insertion helpers -/

theorem execInsert_ok {sf : SnowflakeDB} {t : String} {cols : List String}
    {vals : Row} {tbl : Table}
    (hl : lookupTableList sf.tables t = some tbl)
    (hc : cols ≠ []) (hsub : ∀ c ∈ cols, c ∈ tbl.schema)
    (hlen : vals.length = cols.length) :
    execInsert sf t cols vals = Except.ok ⟨updateTableList sf.tables t
      ⟨tbl.schema, tbl.rows ++ [buildRow tbl.schema cols vals]⟩⟩ := by
  simp only [execInsert, hl, if_neg hc]
  rw [if_pos hsub, if_pos hlen]

theorem execInsert_ok_state {sf sf' : SnowflakeDB} {t : String} {cols : List String}
    {vals : Row} {tbl : Table}
    (hl : lookupTableList sf.tables t = some tbl)
    (hok : execInsert sf t cols vals = Except.ok sf') :
    sf' = ⟨updateTableList sf.tables t
      ⟨tbl.schema, tbl.rows ++ [buildRow tbl.schema cols vals]⟩⟩ := by
  simp only [execInsert, hl] at hok
  by_cases hc : cols = []
  · simp [hc] at hok
  · rw [if_neg hc] at hok
    by_cases hsub : ∀ c ∈ cols, c ∈ tbl.schema
    · rw [if_pos hsub] at hok
      by_cases hlen : vals.length = cols.length
      · rw [if_pos hlen] at hok
        cases hok
        rfl
      · rw [if_neg hlen] at hok
        cases hok
    · rw [if_neg hsub] at hok
      cases hok

theorem insertLoop_ok {t : String} {cols : List String} (hc : cols ≠ []) :
    ∀ (rows : List Row) (sf : SnowflakeDB) (tbl : Table),
    lookupTableList sf.tables t = some tbl →
    (∀ c ∈ cols, c ∈ tbl.schema) →
    (∀ r ∈ rows, r.length = cols.length) →
    ∃ sf₂, insertLoop t cols sf rows =
        (sf₂, rows.map (fun r => (⟨t, cols, r⟩ : InsertCall)), none) ∧
      lookupTableList sf₂.tables t =
        some ⟨tbl.schema, tbl.rows ++ rows.map (buildRow tbl.schema cols)⟩ := by
  intro rows
  induction rows with
  | nil =>
    intro sf tbl hl _ _
    exact ⟨sf, by simp [insertLoop], by simpa using hl⟩
  | cons r rs ih =>
    intro sf tbl hl hsub hlens
    have hr : r.length = cols.length := hlens r (List.mem_cons_self r rs)
    have hins := execInsert_ok hl hc hsub hr
    set tbl₂ : Table := ⟨tbl.schema, tbl.rows ++ [buildRow tbl.schema cols r]⟩ with htbl₂
    have hl₂ : lookupTableList (SnowflakeDB.mk (updateTableList sf.tables t tbl₂)).tables t =
        some tbl₂ := lookupTableList_updateTableList tbl₂ hl
    obtain ⟨sf₂, hloop, hfinal⟩ := ih ⟨updateTableList sf.tables t tbl₂⟩ tbl₂ hl₂ hsub
      (fun x hx => hlens x (List.mem_cons_of_mem r hx))
    refine ⟨sf₂, ?_, ?_⟩
    · simp only [insertLoop, hins, hloop, List.map_cons]
    · rw [hfinal, htbl₂]
      simp

theorem insertLoop_appends (t : String) (cols : List String) :
    ∀ (rows : List Row) (sf : SnowflakeDB) (tbl : Table),
    lookupTableList sf.tables t = some tbl →
    ∃ k, k ≤ rows.length ∧
      lookupTableList (insertLoop t cols sf rows).1.tables t =
        some ⟨tbl.schema, tbl.rows ++ (rows.take k).map (buildRow tbl.schema cols)⟩ := by
  intro rows
  induction rows with
  | nil =>
    intro sf tbl hl
    exact ⟨0, by simp, by simpa using hl⟩
  | cons r rs ih =>
    intro sf tbl hl
    cases hins : execInsert sf t cols r with
    | error e =>
      refine ⟨0, by simp, ?_⟩
      simp only [insertLoop, hins]
      simpa using hl
    | ok sf₂ =>
      have hsf₂ := execInsert_ok_state hl hins
      subst hsf₂
      set tbl₂ : Table := ⟨tbl.schema, tbl.rows ++ [buildRow tbl.schema cols r]⟩ with htbl₂
      have hl₂ : lookupTableList (SnowflakeDB.mk (updateTableList sf.tables t tbl₂)).tables t =
          some tbl₂ := lookupTableList_updateTableList tbl₂ hl
      obtain ⟨k, hk, hfinal⟩ := ih ⟨updateTableList sf.tables t tbl₂⟩ tbl₂ hl₂
      refine ⟨k + 1, by simpa using Nat.succ_le_succ hk, ?_⟩
      simp only [insertLoop, hins]
      rw [hfinal, htbl₂]
      simp [List.take_succ_cons]

theorem insertLoop_calls_shape (t : String) (cols : List String) :
    ∀ (rows : List Row) (sf : SnowflakeDB),
    ∀ call ∈ (insertLoop t cols sf rows).2.1, call.table = t ∧ call.cols = cols := by
  intro rows
  induction rows with
  | nil => intro sf call hcall; simp [insertLoop] at hcall
  | cons r rs ih =>
    intro sf call hcall
    cases hins : execInsert sf t cols r with
    | error e =>
      simp only [insertLoop, hins] at hcall
      simp at hcall
      simp [hcall]
    | ok sf₂ =>
      rcases hloop : insertLoop t cols sf₂ rs with ⟨sf₃, calls, err⟩
      simp only [insertLoop, hins, hloop] at hcall
      simp at hcall
      rcases hcall with rfl | hmem
      · exact ⟨rfl, rfl⟩
      · have := ih sf₂ call
        rw [hloop] at this
        exact this hmem

theorem insertLoop_calls_of_ok (t : String) (cols : List String) :
    ∀ (rows : List Row) (sf : SnowflakeDB),
    (insertLoop t cols sf rows).2.2 = none →
    (insertLoop t cols sf rows).2.1 =
      rows.map (fun r => (⟨t, cols, r⟩ : InsertCall)) := by
  intro rows
  induction rows with
  | nil => intro sf _; simp [insertLoop]
  | cons r rs ih =>
    intro sf herr
    cases hins : execInsert sf t cols r with
    | error e =>
      simp only [insertLoop, hins] at herr
      simp at herr
    | ok sf₂ =>
      rcases hloop : insertLoop t cols sf₂ rs with ⟨sf₃, calls, err⟩
      simp only [insertLoop, hins, hloop] at herr ⊢
      have := ih sf₂
      rw [hloop] at this
      simp only [List.map_cons, List.cons.injEq, true_and]
      exact this herr

theorem insertLoop_append_of_ok {t : String} {cols : List String} :
    ∀ (rows₁ rows₂ : List Row) (sf sf₁ : SnowflakeDB) (calls₁ : List InsertCall),
    insertLoop t cols sf rows₁ = (sf₁, calls₁, none) →
    insertLoop t cols sf (rows₁ ++ rows₂) =
      ((insertLoop t cols sf₁ rows₂).1,
       calls₁ ++ (insertLoop t cols sf₁ rows₂).2.1,
       (insertLoop t cols sf₁ rows₂).2.2) := by
  intro rows₁
  induction rows₁ with
  | nil =>
    intro rows₂ sf sf₁ calls₁ h
    rw [insertLoop] at h
    obtain ⟨rfl, rfl, _⟩ : sf = sf₁ ∧ calls₁ = [] ∧ True := by
      cases h; exact ⟨rfl, rfl, trivial⟩
    simp
  | cons r rs ih =>
    intro rows₂ sf sf₁ calls₁ h
    cases hins : execInsert sf t cols r with
    | error e =>
      simp only [insertLoop, hins] at h
      exact absurd (congrArg (fun p => p.2.2) h) (by simp)
    | ok sf₂ =>
      rcases hloop : insertLoop t cols sf₂ rs with ⟨sf₃, calls, err⟩
      simp only [insertLoop, hins, hloop] at h
      injection h with h1 h23
      injection h23 with h2 h3
      subst h1
      subst h2
      subst h3
      have hih := ih rows₂ sf₂ sf₃ calls hloop
      simp only [List.cons_append, insertLoop, hins, List.append_eq, hih]

/-! ### Task-level characterizations -/

theorem get_max_primary_key_eq {sf : SnowflakeDB} {t : String} {tbl : Table}
    (hl : lookupTableList sf.tables t = some tbl)
    (hpk : ("ID_" ++ t) ∈ tbl.schema) :
    get_max_primary_key sf t =
      Except.ok ((maxInt? (columnInts tbl.schema tbl.rows ("ID_" ++ t))).getD 0, sf) := by
  simp only [get_max_primary_key, hl, if_pos hpk]

theorem querySelectWhereGt_ok {pg : PostgresDB} (cols : List String) {t pkCol : String}
    (w : Int) {tbl : Table}
    (hl : lookupTableList pg.tables t = some tbl)
    (hsub : ∀ c ∈ cols, c ∈ tbl.schema) (hpk : pkCol ∈ tbl.schema) :
    querySelectWhereGt pg cols t pkCol w =
      Except.ok ((tbl.rows.filter (pkGt tbl.schema pkCol w)).map
        (fun r => cols.map (fun c => colValueD tbl.schema r c))) := by
  simp only [querySelectWhereGt, hl, if_pos (And.intro hsub hpk)]

theorem map_project_filter_self {tbl : Table} {pkCol : String} {w : Int}
    (hnd : tbl.schema.Nodup)
    (hwf : ∀ r ∈ tbl.rows, r.length = tbl.schema.length) :
    (tbl.rows.filter (pkGt tbl.schema pkCol w)).map
      (fun r => tbl.schema.map (fun c => colValueD tbl.schema r c)) =
    tbl.rows.filter (pkGt tbl.schema pkCol w) := by
  have h : ∀ r ∈ tbl.rows.filter (pkGt tbl.schema pkCol w),
      tbl.schema.map (fun c => colValueD tbl.schema r c) = id r := by
    intro r hr
    exact projectRow_self hnd (hwf r (List.mem_filter.mp hr).1)
  rw [List.map_congr_left h, List.map_id]

theorem load_incremental_data_aligned {pg : PostgresDB} {sf : SnowflakeDB} {t : String}
    {w : Int} {tbl dtbl : Table}
    (hsrc : lookupTableList pg.tables t = some tbl)
    (hdisc : queryInformationSchemaColumns pg t = tbl.schema)
    (hpk : ("ID_" ++ t) ∈ tbl.schema)
    (hnd : tbl.schema.Nodup)
    (hwf : ∀ r ∈ tbl.rows, r.length = tbl.schema.length)
    (hdst : lookupTableList sf.tables t = some dtbl)
    (hds : dtbl.schema = tbl.schema) :
    ∃ sf₂,
      load_incremental_data pg sf t w =
        (sf₂,
         ⟨tbl.schema, tbl.schema, tbl.rows.filter (pkGt tbl.schema ("ID_" ++ t) w),
          (tbl.rows.filter (pkGt tbl.schema ("ID_" ++ t) w)).map
            (fun r => (⟨t, tbl.schema, r⟩ : InsertCall))⟩,
         none) ∧
      lookupTableList sf₂.tables t =
        some ⟨tbl.schema, dtbl.rows ++ tbl.rows.filter (pkGt tbl.schema ("ID_" ++ t) w)⟩ := by
  have hextract := querySelectWhereGt_ok tbl.schema w hsrc (fun c hc => hc) hpk
  rw [map_project_filter_self hnd hwf] at hextract
  have hcne : tbl.schema ≠ [] := List.ne_nil_of_mem hpk
  have hsub : ∀ c ∈ tbl.schema, c ∈ dtbl.schema := by
    intro c hc
    rw [hds]
    exact hc
  have hlens : ∀ r ∈ tbl.rows.filter (pkGt tbl.schema ("ID_" ++ t) w),
      r.length = tbl.schema.length := by
    intro r hr
    exact hwf r (List.mem_filter.mp hr).1
  obtain ⟨sf₂, hloop, hfinal⟩ := insertLoop_ok (t := t) hcne
    (tbl.rows.filter (pkGt tbl.schema ("ID_" ++ t) w)) sf dtbl hdst hsub hlens
  refine ⟨sf₂, ?_, ?_⟩
  · simp only [load_incremental_data, hdisc, hextract, hloop]
  · rw [hfinal, hds]
    congr 1
    congr 1
    have hb : ∀ r ∈ tbl.rows.filter (pkGt tbl.schema ("ID_" ++ t) w),
        buildRow tbl.schema tbl.schema r = id r := by
      intro r hr
      exact buildRow_self hnd (hlens r hr)
    rw [List.map_congr_left hb, List.map_id]

/-! ### Inversion helpers -/

theorem get_max_primary_key_ok_inv {sf sf' : SnowflakeDB} {t : String} {m : Int}
    (h : get_max_primary_key sf t = Except.ok (m, sf')) :
    ∃ tbl, lookupTableList sf.tables t = some tbl ∧ ("ID_" ++ t) ∈ tbl.schema ∧
      m = (maxInt? (columnInts tbl.schema tbl.rows ("ID_" ++ t))).getD 0 ∧
      sf' = sf := by
  rw [get_max_primary_key] at h
  cases hl : lookupTableList sf.tables t with
  | none => rw [hl] at h; cases h
  | some tbl =>
    rw [hl] at h
    simp only at h
    by_cases hpk : ("ID_" ++ t) ∈ tbl.schema
    · rw [if_pos hpk] at h
      cases h
      exact ⟨tbl, rfl, hpk, rfl, rfl⟩
    · rw [if_neg hpk] at h
      cases h

theorem querySelectWhereGt_ok_inv {pg : PostgresDB} {cols : List String}
    {t pkCol : String} {w : Int} {rows : List Row}
    (h : querySelectWhereGt pg cols t pkCol w = Except.ok rows) :
    ∃ tbl, lookupTableList pg.tables t = some tbl ∧
      (∀ c ∈ cols, c ∈ tbl.schema) ∧ pkCol ∈ tbl.schema ∧
      rows = (tbl.rows.filter (pkGt tbl.schema pkCol w)).map
        (fun r => cols.map (fun c => colValueD tbl.schema r c)) := by
  rw [querySelectWhereGt] at h
  cases hl : lookupTableList pg.tables t with
  | none => rw [hl] at h; cases h
  | some tbl =>
    rw [hl] at h
    simp only at h
    by_cases hc : (∀ c ∈ cols, c ∈ tbl.schema) ∧ pkCol ∈ tbl.schema
    · rw [if_pos hc] at h
      cases h
      exact ⟨tbl, rfl, hc.1, hc.2, rfl⟩
    · rw [if_neg hc] at h
      cases h

theorem colValueD_map_project {s cols : List String} {r : Row} {pkCol : String} :
    colValueD cols (cols.map (fun c => colValueD s r c)) pkCol =
      (if pkCol ∈ cols then colValueD s r pkCol else Value.null) := by
  cases h : colIdx? cols pkCol with
  | none =>
    rw [colValueD, h, if_neg ((colIdx?_eq_none_iff cols pkCol).mp h)]
  | some j =>
    have hlt : j < cols.length := colIdx?_lt_length h
    have hget : cols[j] = pkCol := getElem_colIdx? h hlt
    have hmem : pkCol ∈ cols := hget ▸ cols.getElem_mem hlt
    simp only [colValueD, h]
    rw [List.getD_eq_getElem _ Value.null (by simpa using hlt), List.getElem_map,
      hget, if_pos hmem]

theorem columnInts_filter_gt {schema : List String} {rows : List Row}
    {pkCol : String} {w i : Int}
    (h : i ∈ columnInts schema (rows.filter (pkGt schema pkCol w)) pkCol) :
    w < i := by
  obtain ⟨r, hr, hv⟩ := mem_columnInts.mp h
  have hp := (List.mem_filter.mp hr).2
  rw [pkGt, hv] at hp
  simpa using hp

/-! ### Claims -/

/-- Claim C1: for every table name `t` and watermark `w`, the rows
`load_incremental_data t w` extracts are exactly the source rows of `t`
whose primary-key column `ID_t` holds a value strictly greater than `w`:
no row with `ID_t ≤ w` is extracted and no row with `ID_t > w` is
omitted.  The hypotheses say the source table exists, the catalog
describes its schema, the naming-convention column is present, and the
stored rows fit the schema. -/
theorem load_incremental_data_exact_delta
    {pg : PostgresDB} (sf : SnowflakeDB) {t : String} (w : Int) {tbl : Table}
    (hsrc : lookupTableList pg.tables t = some tbl)
    (hdisc : queryInformationSchemaColumns pg t = tbl.schema)
    (hpk : ("ID_" ++ t) ∈ tbl.schema)
    (hnd : tbl.schema.Nodup)
    (hwf : ∀ r ∈ tbl.rows, r.length = tbl.schema.length) :
    (load_incremental_data pg sf t w).2.1.extracted =
      tbl.rows.filter (pkGt tbl.schema ("ID_" ++ t) w) ∧
    ∀ r, r ∈ (load_incremental_data pg sf t w).2.1.extracted ↔
      (r ∈ tbl.rows ∧ pkGt tbl.schema ("ID_" ++ t) w r = true) := by
  have hextract := querySelectWhereGt_ok tbl.schema w hsrc (fun c hc => hc) hpk
  rw [map_project_filter_self hnd hwf] at hextract
  have hmain : (load_incremental_data pg sf t w).2.1.extracted =
      tbl.rows.filter (pkGt tbl.schema ("ID_" ++ t) w) := by
    rcases hloop : insertLoop t tbl.schema sf
        (tbl.rows.filter (pkGt tbl.schema ("ID_" ++ t) w)) with ⟨sf₂, calls, err⟩
    simp only [load_incremental_data, hdisc, hextract, hloop]
  refine ⟨hmain, ?_⟩
  intro r
  rw [hmain]
  exact List.mem_filter

/-- Witness for C1 on the `estados` scenario with watermark 3: exactly the
two source rows with primary keys 4 and 5 are extracted. -/
theorem load_incremental_data_exact_delta_witness :
    (load_incremental_data samplePg sampleSf "estados" 3).2.1.extracted =
      estadosSrc.rows.filter (pkGt estadosSrc.schema ("ID_" ++ "estados") 3) ∧
    (load_incremental_data samplePg sampleSf "estados" 3).2.1.extracted =
      [[Value.int 4, Value.str "AM"], [Value.int 5, Value.str "BA"]] :=
  ⟨(load_incremental_data_exact_delta sampleSf 3
      (show lookupTableList samplePg.tables "estados" = some estadosSrc from rfl)
      (show queryInformationSchemaColumns samplePg "estados" = estadosSrc.schema from rfl)
      (by decide) (by decide) (by decide)).1,
   by decide⟩

/-- Claim C2: for every table name `t`, `get_max_primary_key t` returns the
maximum value of the column `ID_t` over the rows currently present in the
destination table `t`, and returns `0` when the table has no rows (the
`MAX` aggregate yields the `NULL` no-rows indicator). -/
theorem get_max_primary_key_spec {sf : SnowflakeDB} {t : String} {tbl : Table}
    (hl : lookupTableList sf.tables t = some tbl)
    (hpk : ("ID_" ++ t) ∈ tbl.schema)
    (hint : ∀ r ∈ tbl.rows, ∃ i : Int, colValueD tbl.schema r ("ID_" ++ t) = Value.int i) :
    (tbl.rows = [] → get_max_primary_key sf t = Except.ok (0, sf)) ∧
    (tbl.rows ≠ [] → ∃ m : Int, get_max_primary_key sf t = Except.ok (m, sf) ∧
      (∃ r ∈ tbl.rows, colValueD tbl.schema r ("ID_" ++ t) = Value.int m) ∧
      (∀ r ∈ tbl.rows, ∀ i : Int,
        colValueD tbl.schema r ("ID_" ++ t) = Value.int i → i ≤ m)) := by
  rw [get_max_primary_key_eq hl hpk]
  constructor
  · intro hnil
    rw [hnil]
    rfl
  · intro hne
    obtain ⟨r₀, hr₀⟩ := List.exists_mem_of_ne_nil tbl.rows hne
    obtain ⟨i₀, hi₀⟩ := hint r₀ hr₀
    have hmem₀ : i₀ ∈ columnInts tbl.schema tbl.rows ("ID_" ++ t) :=
      mem_columnInts.mpr ⟨r₀, hr₀, hi₀⟩
    obtain ⟨m, hm⟩ := maxInt?_isSome_of_ne_nil (List.ne_nil_of_mem hmem₀)
    refine ⟨m, by rw [hm]; rfl, ?_, ?_⟩
    · exact mem_columnInts.mp (maxInt?_mem hm)
    · intro r hr i hi
      exact le_maxInt? hm i (mem_columnInts.mpr ⟨r, hr, hi⟩)

/-- Witness for C2: on the `estados` destination holding keys 1..3 the
reader returns 3; on the empty destination it returns 0. -/
theorem get_max_primary_key_spec_witness :
    (estadosDst.rows ≠ [] → ∃ m : Int,
      get_max_primary_key sampleSf "estados" = Except.ok (m, sampleSf) ∧
      (∃ r ∈ estadosDst.rows,
        colValueD estadosDst.schema r ("ID_" ++ "estados") = Value.int m) ∧
      (∀ r ∈ estadosDst.rows, ∀ i : Int,
        colValueD estadosDst.schema r ("ID_" ++ "estados") = Value.int i → i ≤ m)) ∧
    get_max_primary_key sampleSf "estados" = Except.ok (3, sampleSf) ∧
    get_max_primary_key emptySf "estados" = Except.ok (0, emptySf) :=
  ⟨(get_max_primary_key_spec
      (show lookupTableList sampleSf.tables "estados" = some estadosDst from rfl)
      (by decide)
      (by intro r hr; fin_cases hr <;> exact ⟨_, rfl⟩)).2,
   rfl, rfl⟩

/-- Claim C3: within one invocation of `load_incremental_data`, the column
list of the extraction query and the column list of every insertion
statement are the same list, in the same order, so inserted values land
positionally in the matching destination columns. -/
theorem load_incremental_data_column_fidelity
    (pg : PostgresDB) (sf : SnowflakeDB) (t : String) (w : Int) :
    (load_incremental_data pg sf t w).2.1.selectCols =
      (load_incremental_data pg sf t w).2.1.discovered ∧
    ∀ call ∈ (load_incremental_data pg sf t w).2.1.inserts,
      call.cols = (load_incremental_data pg sf t w).2.1.selectCols ∧ call.table = t := by
  cases hq : querySelectWhereGt pg (queryInformationSchemaColumns pg t) t
      ("ID_" ++ t) w with
  | error e =>
    constructor
    · simp [load_incremental_data, hq]
    · intro call hcall
      simp [load_incremental_data, hq] at hcall
  | ok rows =>
    rcases hloop : insertLoop t (queryInformationSchemaColumns pg t) sf rows with
      ⟨sf₂, calls, err⟩
    constructor
    · simp [load_incremental_data, hq, hloop]
    · intro call hcall
      have hshape := insertLoop_calls_shape t (queryInformationSchemaColumns pg t)
        rows sf call
      rw [hloop] at hshape
      simp only [load_incremental_data, hq, hloop] at hcall ⊢
      exact ⟨(hshape hcall).2, (hshape hcall).1⟩

/-- Witness for C3 on the `estados` scenario: both executed inserts name
exactly the discovered column list. -/
theorem load_incremental_data_column_fidelity_witness :
    (load_incremental_data samplePg sampleSf "estados" 3).2.1.selectCols =
      (load_incremental_data samplePg sampleSf "estados" 3).2.1.discovered ∧
    ∀ call ∈ (load_incremental_data samplePg sampleSf "estados" 3).2.1.inserts,
      call.cols = (load_incremental_data samplePg sampleSf "estados" 3).2.1.selectCols ∧
      call.table = "estados" :=
  load_incremental_data_column_fidelity samplePg sampleSf "estados" 3

/-- Claim C6: when column discovery returns zero columns because the table
is absent from the source store (dropped or renamed), the load fails with
a store-level error before inserting anything; it does not complete as a
silent successful run, and the destination is left untouched. -/
theorem load_incremental_data_absent_table_fails
    {pg : PostgresDB} (sf : SnowflakeDB) {t : String} (w : Int)
    (hdisc : queryInformationSchemaColumns pg t = [])
    (habs : lookupTableList pg.tables t = none) :
    (load_incremental_data pg sf t w).2.2 = some SqlError.undefinedTable ∧
    (load_incremental_data pg sf t w).1 = sf ∧
    (load_incremental_data pg sf t w).2.1.inserts = [] := by
  have hq : querySelectWhereGt pg (queryInformationSchemaColumns pg t) t
      ("ID_" ++ t) w = Except.error SqlError.undefinedTable := by
    simp only [querySelectWhereGt, habs]
  simp [load_incremental_data, hq]

/-- Witness for C6: loading the absent table `estados` from the empty
source store raises the undefined-table error and inserts nothing. -/
theorem load_incremental_data_absent_table_fails_witness :
    (load_incremental_data absentPg sampleSf "estados" 0).2.2 =
      some SqlError.undefinedTable ∧
    (load_incremental_data absentPg sampleSf "estados" 0).1 = sampleSf ∧
    (load_incremental_data absentPg sampleSf "estados" 0).2.1.inserts = [] :=
  load_incremental_data_absent_table_fails sampleSf 0
    (show queryInformationSchemaColumns absentPg "estados" = [] from rfl)
    (show lookupTableList absentPg.tables "estados" = none from rfl)

/-- Claim C8: `get_max_primary_key` leaves the destination store exactly as
it found it — it only issues a read-only aggregate query.  (It takes no
connection to the source store at all, so the source is untouched by
construction.) -/
theorem get_max_primary_key_no_mutation
    {sf sf' : SnowflakeDB} {t : String} {m : Int}
    (h : get_max_primary_key sf t = Except.ok (m, sf')) : sf' = sf := by
  rw [get_max_primary_key] at h
  cases hl : lookupTableList sf.tables t with
  | none => rw [hl] at h; cases h
  | some tbl =>
    rw [hl] at h
    simp only at h
    by_cases hpk : ("ID_" ++ t) ∈ tbl.schema
    · rw [if_pos hpk] at h
      cases h
      rfl
    · rw [if_neg hpk] at h
      cases h

/-- Witness for C8: reading the watermark of the `estados` destination
returns the store it was given. -/
theorem get_max_primary_key_no_mutation_witness :
    (get_max_primary_key sampleSf "estados" = Except.ok (3, sampleSf)) ∧
    ∀ sf' : SnowflakeDB, get_max_primary_key sampleSf "estados" =
      Except.ok (3, sf') → sf' = sampleSf :=
  ⟨rfl, fun sf' h => get_max_primary_key_no_mutation h⟩

/-- Claim C9: when a load run completes without error, it performed one
`INSERT` execution per extracted row, carrying the rows in exactly the
order the extraction query returned them, so the number of insert
executions equals the number of extracted rows and no extracted row is
inserted twice within the run. -/
theorem load_incremental_data_insert_per_row
    {pg : PostgresDB} {sf : SnowflakeDB} {t : String} {w : Int}
    (h : (load_incremental_data pg sf t w).2.2 = none) :
    (load_incremental_data pg sf t w).2.1.inserts =
      (load_incremental_data pg sf t w).2.1.extracted.map
        (fun r => (⟨t, (load_incremental_data pg sf t w).2.1.discovered, r⟩ : InsertCall)) ∧
    (load_incremental_data pg sf t w).2.1.inserts.map (fun call => call.vals) =
      (load_incremental_data pg sf t w).2.1.extracted ∧
    (load_incremental_data pg sf t w).2.1.inserts.length =
      (load_incremental_data pg sf t w).2.1.extracted.length := by
  cases hq : querySelectWhereGt pg (queryInformationSchemaColumns pg t) t
      ("ID_" ++ t) w with
  | error e =>
    rw [load_incremental_data] at h
    simp only [hq] at h
    simp at h
  | ok rows =>
    rcases hloop : insertLoop t (queryInformationSchemaColumns pg t) sf rows with
      ⟨sf₂, calls, err⟩
    simp only [load_incremental_data, hq, hloop] at h ⊢
    have hcalls := insertLoop_calls_of_ok t (queryInformationSchemaColumns pg t) rows sf
    rw [hloop] at hcalls
    have hc : calls = rows.map
        (fun r => (⟨t, queryInformationSchemaColumns pg t, r⟩ : InsertCall)) := hcalls h
    subst hc
    refine ⟨rfl, ?_, by rw [List.length_map]⟩
    rw [List.map_map]
    exact List.map_id'' (fun x => rfl) rows

/-- Witness for C9 on the `estados` scenario: the successful run performs
exactly two inserts, one per extracted row, in extraction order. -/
theorem load_incremental_data_insert_per_row_witness :
    (load_incremental_data samplePg sampleSf "estados" 3).2.2 = none ∧
    (load_incremental_data samplePg sampleSf "estados" 3).2.1.inserts.map
        (fun call => call.vals) =
      (load_incremental_data samplePg sampleSf "estados" 3).2.1.extracted ∧
    (load_incremental_data samplePg sampleSf "estados" 3).2.1.inserts.length = 2 :=
  ⟨by decide,
   (load_incremental_data_insert_per_row (by decide)).2.1,
   by decide⟩

/-- Claim C10: column discovery filters `information_schema.columns` by
`table_name` alone — the `table_schema` field of every entry is ignored,
the result keeps catalog order with no ordering clause, and when a table
of the same name appears in more than one schema the columns of every
such table are returned. -/
theorem queryInformationSchemaColumns_schema_agnostic :
    (∀ pg : PostgresDB, ∀ t c : String,
      c ∈ queryInformationSchemaColumns pg t ↔
        ∃ e ∈ pg.catalog, e.table_name = t ∧ e.column_name = c) ∧
    (∀ cat₁ cat₂ : List CatalogEntry, ∀ ts : List (String × Table), ∀ t : String,
      queryInformationSchemaColumns ⟨cat₁ ++ cat₂, ts⟩ t =
        queryInformationSchemaColumns ⟨cat₁, ts⟩ t ++
        queryInformationSchemaColumns ⟨cat₂, ts⟩ t) ∧
    (∀ cat : List CatalogEntry, ∀ ts ts' : List (String × Table), ∀ t : String,
      ∀ f : CatalogEntry → String,
      queryInformationSchemaColumns
          ⟨cat.map (fun e => ⟨f e, e.table_name, e.column_name⟩), ts⟩ t =
        queryInformationSchemaColumns ⟨cat, ts'⟩ t) := by
  refine ⟨?_, ?_, ?_⟩
  · intro pg t c
    simp only [queryInformationSchemaColumns, List.mem_map, List.mem_filter]
    constructor
    · rintro ⟨e, ⟨he, ht⟩, rfl⟩
      exact ⟨e, he, by simpa using ht, rfl⟩
    · rintro ⟨e, he, ht, rfl⟩
      exact ⟨e, ⟨he, by simpa using ht⟩, rfl⟩
  · intro cat₁ cat₂ ts t
    simp only [queryInformationSchemaColumns, List.filter_append, List.map_append]
  · intro cat ts ts' t f
    simp only [queryInformationSchemaColumns, List.filter_map, List.map_map]
    rfl

/-- Witness for C10: with `estados` present in the `public` and `staging`
schemas, discovery returns the columns of both, in catalog order. -/
theorem queryInformationSchemaColumns_schema_agnostic_witness :
    ("obs" ∈ queryInformationSchemaColumns twoSchemaPg "estados") ∧
    queryInformationSchemaColumns twoSchemaPg "estados" =
      ["ID_estados", "nome", "obs"] :=
  ⟨(queryInformationSchemaColumns_schema_agnostic.1 twoSchemaPg "estados" "obs").mpr
      ⟨⟨"staging", "estados", "obs"⟩, by decide, rfl, rfl⟩,
   by decide⟩

/-- Claim C5: the watermark never decreases across runs.  If a run reads
watermark `w₁` from the destination and then loads the delta above `w₁`
(whether the load finishes cleanly or stops partway), reading the
watermark again afterwards succeeds and yields `w₂ ≥ w₁`: the pipeline's
only destination mutation is row insertion, and every row it inserts
carries a primary key above `w₁`. -/
theorem get_max_primary_key_monotone
    {pg : PostgresDB} {sf sf₀ : SnowflakeDB} {t : String} {w₁ : Int}
    (hget : get_max_primary_key sf t = Except.ok (w₁, sf₀)) :
    ∃ w₂ : Int,
      get_max_primary_key (load_incremental_data pg sf t w₁).1 t =
        Except.ok (w₂, (load_incremental_data pg sf t w₁).1) ∧
      w₁ ≤ w₂ := by
  obtain ⟨dt, hdt, hpk, hw₁, hsf₀⟩ := get_max_primary_key_ok_inv hget
  cases hq : querySelectWhereGt pg (queryInformationSchemaColumns pg t) t
      ("ID_" ++ t) w₁ with
  | error e =>
    refine ⟨w₁, ?_, le_refl w₁⟩
    have hload : (load_incremental_data pg sf t w₁).1 = sf := by
      simp only [load_incremental_data, hq]
    rw [hload, get_max_primary_key_eq hdt hpk, hw₁]
  | ok rows =>
    obtain ⟨stbl, hstbl, hsub, hspk, hrows⟩ := querySelectWhereGt_ok_inv hq
    rcases hloop : insertLoop t (queryInformationSchemaColumns pg t) sf rows with
      ⟨sf₂, calls, err⟩
    have hload : (load_incremental_data pg sf t w₁).1 = sf₂ := by
      simp only [load_incremental_data, hq, hloop]
    obtain ⟨k, hk, hcontent⟩ :=
      insertLoop_appends t (queryInformationSchemaColumns pg t) rows sf dt hdt
    rw [hloop] at hcontent
    simp only at hcontent
    have hget₂ := get_max_primary_key_eq hcontent hpk
    rw [hload]
    refine ⟨_, hget₂, ?_⟩
    rw [columnInts_append]
    have hNgt : ∀ i : Int,
        i ∈ columnInts dt.schema
          ((rows.take k).map (buildRow dt.schema (queryInformationSchemaColumns pg t)))
          ("ID_" ++ t) → w₁ < i := by
      intro i hi
      obtain ⟨b, hb, hv⟩ := mem_columnInts.mp hi
      obtain ⟨x, hx, rfl⟩ := List.mem_map.mp hb
      have hxrows : x ∈ rows := List.take_subset k rows hx
      rw [hrows] at hxrows
      obtain ⟨r, hr, rfl⟩ := List.mem_map.mp hxrows
      rw [colValueD_buildRow hpk, colValueD_map_project] at hv
      by_cases hmem : ("ID_" ++ t) ∈ queryInformationSchemaColumns pg t
      · rw [if_pos hmem] at hv
        have hp := (List.mem_filter.mp hr).2
        rw [pkGt, hv] at hp
        simpa using hp
      · rw [if_neg hmem] at hv
        cases hv
    cases h₀ : maxInt? (columnInts dt.schema dt.rows ("ID_" ++ t)) with
    | some m =>
      have hm : m ∈ columnInts dt.schema dt.rows ("ID_" ++ t) ++
          columnInts dt.schema
            ((rows.take k).map (buildRow dt.schema (queryInformationSchemaColumns pg t)))
            ("ID_" ++ t) :=
        List.mem_append_left _ (maxInt?_mem h₀)
      obtain ⟨m₂, hm₂⟩ := maxInt?_isSome_of_ne_nil (List.ne_nil_of_mem hm)
      rw [hm₂, hw₁, h₀]
      simpa using le_maxInt? hm₂ m hm
    | none =>
      have h₀nil : columnInts dt.schema dt.rows ("ID_" ++ t) = [] :=
        (maxInt?_eq_none_iff _).mp h₀
      rw [hw₁, h₀, h₀nil, List.nil_append]
      cases hN : maxInt? (columnInts dt.schema
          ((rows.take k).map (buildRow dt.schema (queryInformationSchemaColumns pg t)))
          ("ID_" ++ t)) with
      | none => simp
      | some m₂ =>
        have hgt := hNgt m₂ (maxInt?_mem hN)
        rw [hw₁, h₀] at hgt
        simp only [Option.getD_none, Option.getD_some]
        simp only [Option.getD_none] at hgt
        omega

/-- Witness for C5 on the `estados` scenario: the first run reads watermark
3; after the load the watermark read again is some `w₂ ≥ 3`. -/
theorem get_max_primary_key_monotone_witness :
    ∃ w₂ : Int,
      get_max_primary_key
          (load_incremental_data samplePg sampleSf "estados" 3).1 "estados" =
        Except.ok (w₂, (load_incremental_data samplePg sampleSf "estados" 3).1) ∧
      (3 : Int) ≤ w₂ :=
  get_max_primary_key_monotone
    (show get_max_primary_key sampleSf "estados" = Except.ok (3, sampleSf) from rfl)

/-- Claim C7: insertion is row-at-a-time with no whole-batch transaction.
If the extracted batch is `rows₁ ++ r :: rows₂` and the loop's `INSERT`
for `r` raises after every row of `rows₁` was inserted, then (1) the loop
stops with that error, having executed exactly one insert per row of
`rows₁` plus the failing one and none for `rows₂`; (2) the rows of
`rows₁` are already committed in the destination and stay there — no
rollback; and (3) under those circumstances the whole load ends in the
same state with the error raised, so the next run's freshly recomputed
watermark is read over a destination that includes the committed prefix
(at-least-once delivery). -/
theorem insertLoop_partial_failure
    {t : String} {cols : List String} {sf sf₁ : SnowflakeDB} {dt : Table}
    {rows₁ : List Row} (rows₂ : List Row) {r : Row} {calls₁ : List InsertCall}
    {e : SqlError}
    (hdt : lookupTableList sf.tables t = some dt)
    (hcne : cols ≠ [])
    (hsub : ∀ c ∈ cols, c ∈ dt.schema)
    (hlens : ∀ x ∈ rows₁, x.length = cols.length)
    (hloop₁ : insertLoop t cols sf rows₁ = (sf₁, calls₁, none))
    (hfail : execInsert sf₁ t cols r = Except.error e) :
    insertLoop t cols sf (rows₁ ++ r :: rows₂) =
      (sf₁, calls₁ ++ [⟨t, cols, r⟩], some e) ∧
    lookupTableList sf₁.tables t =
      some ⟨dt.schema, dt.rows ++ rows₁.map (buildRow dt.schema cols)⟩ ∧
    (∀ pg : PostgresDB, ∀ w : Int,
      queryInformationSchemaColumns pg t = cols →
      querySelectWhereGt pg cols t ("ID_" ++ t) w = Except.ok (rows₁ ++ r :: rows₂) →
      load_incremental_data pg sf t w =
        (sf₁, ⟨cols, cols, rows₁ ++ r :: rows₂, calls₁ ++ [⟨t, cols, r⟩]⟩, some e)) := by
  have htail : insertLoop t cols sf₁ (r :: rows₂) = (sf₁, [⟨t, cols, r⟩], some e) := by
    simp only [insertLoop, hfail]
  have happ := insertLoop_append_of_ok rows₁ (r :: rows₂) sf sf₁ calls₁ hloop₁
  rw [htail] at happ
  have h₁ : insertLoop t cols sf (rows₁ ++ r :: rows₂) =
      (sf₁, calls₁ ++ [⟨t, cols, r⟩], some e) := by simpa using happ
  refine ⟨h₁, ?_, ?_⟩
  · obtain ⟨sf₂, hloop', hcontent⟩ := insertLoop_ok hcne rows₁ sf dt hdt hsub hlens
    rw [hloop₁] at hloop'
    injection hloop' with hsf _
    rw [hsf]
    exact hcontent
  · intro pg w hdiscov hq
    simp only [load_incremental_data, hdiscov, hq, h₁]

/-- Witness for C7: inserting the batch `[4-row] ++ bad-row :: [5-row]`
into the `estados` destination commits the 4-row, fails on the malformed
row (one value for two columns), reports the error, and never attempts
the 5-row. -/
theorem insertLoop_partial_failure_witness :
    insertLoop "estados" ["ID_estados", "nome"] sampleSf
        ([[Value.int 4, Value.str "AM"]] ++ [Value.int 9] ::
          [[Value.int 5, Value.str "BA"]]) =
      (sampleSfAfterOne,
       [⟨"estados", ["ID_estados", "nome"], [Value.int 4, Value.str "AM"]⟩] ++
         [⟨"estados", ["ID_estados", "nome"], [Value.int 9]⟩],
       some SqlError.typeMismatch) ∧
    lookupTableList sampleSfAfterOne.tables "estados" =
      some ⟨estadosDst.schema, estadosDst.rows ++
        [[Value.int 4, Value.str "AM"]].map
          (buildRow estadosDst.schema ["ID_estados", "nome"])⟩ := by
  have h := insertLoop_partial_failure [[Value.int 5, Value.str "BA"]]
    (show lookupTableList sampleSf.tables "estados" = some estadosDst from rfl)
    (by decide) (by decide) (by decide)
    (show insertLoop "estados" ["ID_estados", "nome"] sampleSf
        [[Value.int 4, Value.str "AM"]] =
      (sampleSfAfterOne,
       [⟨"estados", ["ID_estados", "nome"], [Value.int 4, Value.str "AM"]⟩],
       none) from rfl)
    (show execInsert sampleSfAfterOne "estados" ["ID_estados", "nome"] [Value.int 9] =
      Except.error SqlError.typeMismatch from rfl)
  exact ⟨h.1, h.2.1⟩

/-- Claim C4: running the two-step pipeline twice in succession against an
unchanged source inserts zero rows on the second run.  After a first run
whose watermark equals or exceeds every remaining source key, extraction
is empty, insertion does no work, and the run ends without error — the
steady state is a no-op, not a failure. -/
theorem pipeline_second_run_noop
    {pg : PostgresDB} {sf : SnowflakeDB} {t : String} {tbl dtbl : Table}
    (hsrc : lookupTableList pg.tables t = some tbl)
    (hdisc : queryInformationSchemaColumns pg t = tbl.schema)
    (hpk : ("ID_" ++ t) ∈ tbl.schema)
    (hnd : tbl.schema.Nodup)
    (hwf : ∀ r ∈ tbl.rows, r.length = tbl.schema.length)
    (hdst : lookupTableList sf.tables t = some dtbl)
    (hds : dtbl.schema = tbl.schema) :
    (pipelineRun pg sf t).2.2 = none ∧
    (pipelineRun pg (pipelineRun pg sf t).1 t).2.1.extracted = [] ∧
    (pipelineRun pg (pipelineRun pg sf t).1 t).2.1.inserts = [] ∧
    (pipelineRun pg (pipelineRun pg sf t).1 t).2.2 = none ∧
    (pipelineRun pg (pipelineRun pg sf t).1 t).1 = (pipelineRun pg sf t).1 := by
  have hpkd : ("ID_" ++ t) ∈ dtbl.schema := by rw [hds]; exact hpk
  have hget₁ := get_max_primary_key_eq hdst hpkd
  rw [hds] at hget₁
  set w₁ : Int :=
    (maxInt? (columnInts tbl.schema dtbl.rows ("ID_" ++ t))).getD 0 with hw₁
  obtain ⟨sf₂, hload₁, hcontent⟩ :=
    load_incremental_data_aligned (w := w₁) hsrc hdisc hpk hnd hwf hdst hds
  have hrun₁ : pipelineRun pg sf t =
      (sf₂, ⟨tbl.schema, tbl.schema,
        tbl.rows.filter (pkGt tbl.schema ("ID_" ++ t) w₁),
        (tbl.rows.filter (pkGt tbl.schema ("ID_" ++ t) w₁)).map
          (fun r => (⟨t, tbl.schema, r⟩ : InsertCall))⟩, none) := by
    simp only [pipelineRun, hget₁, hload₁]
  have hget₂ := get_max_primary_key_eq hcontent hpk
  set w₂ : Int :=
    (maxInt? (columnInts tbl.schema
      (dtbl.rows ++ tbl.rows.filter (pkGt tbl.schema ("ID_" ++ t) w₁))
      ("ID_" ++ t))).getD 0 with hw₂
  have hbound : ∀ r ∈ tbl.rows, ∀ i : Int,
      colValueD tbl.schema r ("ID_" ++ t) = Value.int i → i ≤ w₂ := by
    intro r hr i hv
    rw [hw₂, columnInts_append]
    set ints₀ := columnInts tbl.schema dtbl.rows ("ID_" ++ t) with hi₀
    set intsF := columnInts tbl.schema
      (tbl.rows.filter (pkGt tbl.schema ("ID_" ++ t) w₁)) ("ID_" ++ t) with hiF
    have hFgt : ∀ j : Int, j ∈ intsF → w₁ < j := by
      intro j hj
      exact columnInts_filter_gt (hiF ▸ hj)
    by_cases hlt : w₁ < i
    · have hrF : r ∈ tbl.rows.filter (pkGt tbl.schema ("ID_" ++ t) w₁) :=
        List.mem_filter.mpr ⟨hr, by rw [pkGt, hv]; simpa using hlt⟩
      have hiF' : i ∈ intsF := mem_columnInts.mpr ⟨r, hrF, hv⟩
      have hmem : i ∈ ints₀ ++ intsF := List.mem_append_right _ hiF'
      obtain ⟨m, hm⟩ := maxInt?_isSome_of_ne_nil (List.ne_nil_of_mem hmem)
      rw [hm]
      simpa using le_maxInt? hm i hmem
    · push_neg at hlt
      cases h₀ : maxInt? ints₀ with
      | some m =>
        have hw₁m : w₁ = m := by rw [hw₁, h₀]; rfl
        have hmem : m ∈ ints₀ ++ intsF :=
          List.mem_append_left _ (maxInt?_mem h₀)
        obtain ⟨m₂, hm₂⟩ := maxInt?_isSome_of_ne_nil (List.ne_nil_of_mem hmem)
        rw [hm₂]
        have h1 := le_maxInt? hm₂ m hmem
        have h2 : i ≤ m := hw₁m ▸ hlt
        simp only [Option.getD_some]
        omega
      | none =>
        have h₀nil : ints₀ = [] := (maxInt?_eq_none_iff _).mp h₀
        have hw₁0 : w₁ = 0 := by rw [hw₁, h₀]; rfl
        rw [h₀nil, List.nil_append]
        cases hN : maxInt? intsF with
        | none =>
          simp only [Option.getD_none]
          omega
        | some m₂ =>
          have := hFgt m₂ (maxInt?_mem hN)
          simp only [Option.getD_some]
          omega
  have hfilter₂ : tbl.rows.filter (pkGt tbl.schema ("ID_" ++ t) w₂) = [] := by
    rw [List.filter_eq_nil_iff]
    intro r hr
    rw [pkGt]
    cases hv : colValueD tbl.schema r ("ID_" ++ t) with
    | int i =>
      have := hbound r hr i hv
      simpa using this
    | str s => simp
    | null => simp
  have hextract₂ := querySelectWhereGt_ok tbl.schema w₂ hsrc (fun c hc => hc) hpk
  rw [hfilter₂, List.map_nil] at hextract₂
  have hrun₂ : pipelineRun pg sf₂ t =
      (sf₂, ⟨tbl.schema, tbl.schema, [], []⟩, none) := by
    simp only [pipelineRun, hget₂, load_incremental_data, hdisc, hextract₂, insertLoop]
  rw [hrun₁]
  simp [hrun₂]

/-- Witness for C4 on the `estados` scenario: the first run succeeds and
the second run against the unchanged source extracts nothing, inserts
nothing, ends without error, and leaves the destination untouched. -/
theorem pipeline_second_run_noop_witness :
    (pipelineRun samplePg sampleSf "estados").2.2 = none ∧
    (pipelineRun samplePg (pipelineRun samplePg sampleSf "estados").1
        "estados").2.1.extracted = [] ∧
    (pipelineRun samplePg (pipelineRun samplePg sampleSf "estados").1
        "estados").2.1.inserts = [] ∧
    (pipelineRun samplePg (pipelineRun samplePg sampleSf "estados").1
        "estados").2.2 = none ∧
    (pipelineRun samplePg (pipelineRun samplePg sampleSf "estados").1
        "estados").1 = (pipelineRun samplePg sampleSf "estados").1 :=
  pipeline_second_run_noop
    (show lookupTableList samplePg.tables "estados" = some estadosSrc from rfl)
    (show queryInformationSchemaColumns samplePg "estados" = estadosSrc.schema from rfl)
    (by decide) (by decide) (by decide)
    (show lookupTableList sampleSf.tables "estados" = some estadosDst from rfl)
    (by decide)

end PostgresToSnowflake
